import Mathlib

/-!
Verification of the croncat-indexer specification against a shallow
embedding of the repository's Rust source.

The embedding translates the pure logic of the source files:

* `src/indexer/config/filter.rs` — the filter engine
  (`impl PartialEq<Vec<abci::Event>> for Filter`);
* `src/indexer/mod.rs` — `index_block`, `index_transactions_for_block`
  and the AND-combination of filters;
* `src/indexer/historical.rs` — `BlockGap` and its `Iterator` instance;
* `src/indexer/rpc.rs` — `get_block`, `get_transactions_for_block`;
* `src/streams/block.rs` — the pipeline `Block` wrapper and the
  websocket block-stream adapter;
* `src/indexer/system.rs` — the indexer worker loop and the retry
  strategies (`tokio_retry` `Retry::spawn` with Fibonacci backoff).

Effectful Rust is embedded as explicit state passing: the database is an
in-memory record of inserted rows, the RPC endpoint is an oracle
function supplied as a parameter, and asynchronous receive outcomes
(timeouts, closed subscriptions) are enumerated as an inductive type of
observations.  Regexes are abstracted to their match functions
(`String → Bool`): the claims under study never depend on regex syntax,
only on which strings a pattern accepts.
-/

namespace Croncat

/-! ## Events and attributes (tendermint `abci::Event`)

`abci::Event` carries a `type_str` and a list of key/value attributes;
the source reads them via `attribute.key.to_string()` /
`attribute.value.to_string()`, so both are plain strings here. -/

structure Attribute where
  key : String
  value : String
deriving DecidableEq, Repr

structure Event where
  type_str : String
  attributes : List Attribute
deriving DecidableEq, Repr

/-! ## Filter engine (`src/indexer/config/filter.rs`)

`FilterPattern` wraps a compiled `regex::Regex`; only its `is_match`
behaviour is observable in the matching code, so it is embedded as the
match function itself. -/

structure FilterPattern where
  is_match : String → Bool

structure AttributeFilter where
  key : FilterPattern
  value : Option FilterPattern

structure Filter where
  type_str : FilterPattern
  attributes : List AttributeFilter

/-- The `matches` accumulator loop of
`impl PartialEq<Vec<abci::Event>> for Filter` (filter.rs lines 71–94),
transliterated: one fold per `for` loop, each threading the single
mutable `matches` counter (binders renamed from the Rust `matches`,
`attribute`, `filter`, which are Lean keywords). -/
def Filter.matchCount (f : Filter) (events : List Event) : Nat :=
  events.foldl
    (fun ms event =>
      if f.type_str.is_match event.type_str then
        event.attributes.foldl
          (fun m attr =>
            f.attributes.foldl
              (fun m2 flt =>
                if flt.key.is_match attr.key then
                  match flt.value with
                  | some value =>
                      if value.is_match attr.value then m2 + 1 else m2
                  | none => m2 + 1
                else m2)
              m)
          (ms + 1)
      else ms)
    0

/-- `Filter == Vec<abci::Event>` (filter.rs line 92):
`matches == self.attributes.len() + 1`. -/
def Filter.matchesEvents (f : Filter) (events : List Event) : Bool :=
  f.matchCount events == f.attributes.length + 1

/-- The filter step of `index_transactions_for_block`
(mod.rs lines 239–250): count the filters that match and keep the
transaction when the count equals the number of filters. -/
def transactionKept (filters : List Filter) (events : List Event) : Bool :=
  (filters.foldl (fun ms flt =>
      if flt.matchesEvents events then ms + 1 else ms) 0)
    == filters.length

/-! ### The spec's reading of a filter match

For the refinement comparison only: this definition follows the
specification's words ("exactly one event's type matches the type
pattern and, within that event, each attribute filter matches at least
one attribute"), not the source. -/

/-- Spec-worded filter match: exactly one event's type matches, and
within a type-matching event every attribute filter finds at least one
attribute whose key matches and whose value matches when a value
pattern is present. -/
def specFilterMatches (f : Filter) (events : List Event) : Bool :=
  (events.countP (fun e => f.type_str.is_match e.type_str) == 1) &&
  events.any (fun e =>
    f.type_str.is_match e.type_str &&
    f.attributes.all (fun flt =>
      e.attributes.any (fun a =>
        flt.key.is_match a.key &&
          (match flt.value with
           | some v => v.is_match a.value
           | none => true))))

/-- Concrete filter for the claim-1 counterexample: type pattern
accepting exactly `"message"`, one attribute filter whose key pattern
accepts exactly `"action"`, no value pattern. -/
def filterMsgAction : Filter :=
  { type_str := ⟨fun s => s == "message"⟩,
    attributes := [{ key := ⟨fun s => s == "action"⟩, value := none }] }

/-- Concrete event list for the claim-1 counterexample: two events of
type `"message"`, both without attributes. -/
def twoMessageEvents : List Event :=
  [⟨"message", []⟩, ⟨"message", []⟩]

/-! ## Pipeline blocks (`src/streams/block.rs`)

The pipeline `Block` wraps a `tendermint::Block`, exposing `header()`
and `data()`.  The header fields the source reads are the height, the
chain id, the time and the hash (`header().hash()` is modelled as a
stored string); `data()` is the list of raw transactions, used only for
its length. -/

structure TmHeader where
  height : Nat
  chain_id : String
  time : Int
  hashVal : String
deriving DecidableEq, Repr

structure TmBlock where
  header : TmHeader
  data : List String
deriving DecidableEq, Repr

structure Block where
  inner : TmBlock
deriving DecidableEq, Repr

def Block.header (b : Block) : TmHeader := b.inner.header

def Block.data (b : Block) : List String := b.inner.data

/-- `impl Ord for Block` (streams/block.rs lines 57–61):
compare only the header heights. -/
def Block.cmp (a b : Block) : Ordering :=
  compare a.header.height b.header.height

/-- `impl PartialEq for Block` (streams/block.rs lines 69–73):
equality is equality of the header heights. -/
def Block.beq (a b : Block) : Bool :=
  a.header.height == b.header.height

/-! ## Websocket block stream (`src/streams/block.rs`, `ws_block_stream`)

The adapter's asynchronous receive loop is embedded as a function over
the sequence of receive outcomes it observes.  A `RecvOutcome.timeout`
is the 60-second receive timeout elapsing with no event
(`timeout(recv_timeout_duration, subscription.next())` returning
`Err(Elapsed)`); `closed` is the subscription ending
(`subscription.next()` returning `None`); `item` is a received event
result. -/

inductive WsEventData where
  | newBlock (block : Option TmBlock)
  | other
deriving DecidableEq, Repr

structure WsEvent where
  data : WsEventData
deriving DecidableEq, Repr

inductive BlockStreamError where
  | Connect (message : String)
  | Subscribe (message : String)
  | Timeout (timeoutSecs : Nat)
  | EventWithoutBlock
  | TendermintError (message : String)
  | UnexpectedError (message : String)
deriving DecidableEq, Repr

/-- `recv_timeout_duration = Duration::from_secs(60)`
(streams/block.rs line 91), in seconds. -/
def recv_timeout_duration : Nat := 60

inductive RecvOutcome where
  | timeout
  | closed
  | item (e : Except String WsEvent)

/-- The body of `ws_block_stream` (streams/block.rs lines 92–108): the
sequence of items the `try_stream!` yields for a given sequence of
receive outcomes.  A `?`-propagated error is the final yielded item of
the stream. -/
def ws_block_stream : List RecvOutcome → List (Except BlockStreamError Block)
  | [] => []
  | .timeout :: _ => [.error (.Timeout recv_timeout_duration)]
  | .closed :: _ => []
  | .item (.error e) :: _ => [.error (.TendermintError e)]
  | .item (.ok ev) :: rest =>
      match ev.data with
      | .newBlock (some b) => .ok ⟨b⟩ :: ws_block_stream rest
      | .newBlock none => [.error .EventWithoutBlock]
      | .other => ws_block_stream rest

/-! ## Block gaps (`src/indexer/historical.rs`) -/

structure BlockRange where
  range : Int × Int
deriving DecidableEq, Repr

structure BlockGap where
  start_time : Int
  start : Int
  «end» : Int
deriving DecidableEq, Repr

/-- `impl Iterator for BlockGap` (historical.rs lines 84–97): while
`start ≤ end`, yield the range `(start, end)` and increment `start`. -/
def BlockGap.next (g : BlockGap) : Option (BlockRange × BlockGap) :=
  if g.start ≤ g.«end» then
    some (⟨(g.start, g.«end»)⟩, { g with start := g.start + 1 })
  else none

/-- All items yielded by iterating a `BlockGap` to exhaustion. -/
def BlockGap.toList (g : BlockGap) : List BlockRange :=
  if g.start ≤ g.«end» then
    ⟨(g.start, g.«end»)⟩ :: BlockGap.toList { g with start := g.start + 1 }
  else []
termination_by (g.«end» + 1 - g.start).toNat
decreasing_by simp_wf; omega

/-! ## RPC adapter (`src/indexer/rpc.rs`)

The remote endpoint is an oracle function.  `get_block` is instrumented
to also return the height it actually requested. -/

/-- The Rust cast `height as u32` applied to an `i64` `height`
(rpc.rs line 43): truncation to the low 32 bits. -/
def i64_as_u32 (h : Int) : Nat := (h % (2 ^ 32 : Int)).toNat

/-- `get_block` (rpc.rs lines 42–46): requests the block at
`height as u32` from the RPC client.  The second component is the
height of the issued request. -/
def get_block (rpc : Nat → TmBlock) (height : Int) : TmBlock × Nat :=
  (rpc (i64_as_u32 height), i64_as_u32 height)

inductive RpcOrder where
  | ascending
  | descending
deriving DecidableEq, Repr

/-- One `tx_search` request as issued on the wire: the height queried
(`Query::eq("tx.height", height)`), the `prove` flag, the page, the
page size and the ordering. -/
structure TxSearchCall where
  height : Int
  prove : Bool
  page : Nat
  per_page : Nat
  ord : RpcOrder
deriving DecidableEq, Repr

/-- A fetched transaction (`tendermint_rpc::endpoint::tx::Response`),
restricted to the fields the indexer reads. -/
structure TxResponse where
  hash : String
  height : Int
  code : Int
  gas_wanted : Int
  gas_used : Int
  events : List Event
  log : String
  info : String
deriving DecidableEq, Repr

/-- The request `get_transactions_for_block` issues for a page. -/
def txPageCall (height : Int) (page : Nat) : TxSearchCall :=
  { height := height, prove := true, page := page,
    per_page := 100, ord := .ascending }

/-- `get_transactions_for_block` (rpc.rs lines 51–67): issues
`tx_search(Query::eq("tx.height", height), true, current_page, 100,
Order::Ascending)`.  The oracle `rpc` answers the request; the second
component records the request. -/
def get_transactions_for_block
    (rpc : TxSearchCall → Except String (List TxResponse))
    (height : Int) (current_page : Nat) :
    Except String (List TxResponse) × TxSearchCall :=
  (rpc (txPageCall height current_page), txPageCall height current_page)

/-! ## Persistence model (`src/indexer/model`, sea_orm)

The database is an in-memory record of the inserted rows plus a
counter standing in for `Uuid::new_v4()` freshness.  Inserting a block
row whose `(height, chain_id)` already exists fails with the
PostgreSQL unique-violation message, as the real store does under the
`PRIMARY KEY(height, chain_id)` of the migration. -/

structure DbBlockRow where
  id : Nat
  height : Int
  chain_id : String
  time : Int
  hash : String
  num_txs : Int
deriving DecidableEq, Repr

structure DbTxRow where
  id : Nat
  block_id : Nat
  height : Int
  hash : String
  code : Int
  gas_wanted : Int
  gas_used : Int
  events : List Event
  log : String
  info : String
deriving DecidableEq, Repr

structure DbState where
  blocks : List DbBlockRow
  txs : List DbTxRow
  nextUuid : Nat
deriving DecidableEq, Repr

/-- `sea_orm::DbErr`, collapsed to the two cases
`index_block` distinguishes: `DbErr::Query(message)` and every other
variant. -/
inductive DbErr where
  | Query (message : String)
  | Other (message : String)
deriving DecidableEq, Repr

/-- The substring `index_block` looks for in a `DbErr::Query` message
(mod.rs line 174). -/
def duplicateKeyPhrase : String :=
  "duplicate key value violates unique constraint"

/-- `message.contains(pat)`: some contiguous substring equals `pat`. -/
def strContains (msg pat : String) : Bool :=
  msg.toList.tails.any (fun t => pat.toList.isPrefixOf t)

/-- `impl From<Block> for BlockModel` (mod.rs lines 53–74): build a
block row with a fresh UUID; `num_txs` is the length of the block's
transaction payload. -/
def blockModelFrom (db : DbState) (block : Block) : DbBlockRow × DbState :=
  ({ id := db.nextUuid,
     height := (block.header.height : Int),
     chain_id := block.header.chain_id,
     time := block.header.time,
     hash := block.header.hashVal,
     num_txs := (block.data.length : Int) },
   { db with nextUuid := db.nextUuid + 1 })

/-- Inserting a block row enforces the `(height, chain_id)` primary
key: a duplicate fails with the PostgreSQL unique-violation message
wrapped in `DbErr::Query`. -/
def insertBlockRow (db : DbState) (row : DbBlockRow) :
    Except DbErr (DbState × DbBlockRow) :=
  if db.blocks.any (fun b =>
      b.height == row.height && b.chain_id == row.chain_id) then
    .error (.Query (duplicateKeyPhrase ++ " \"block_height_chain_id_key\""))
  else
    .ok ({ db with blocks := db.blocks ++ [row] }, row)

/-- `TransactionModel::from_response` (mod.rs lines 83–105): a
transaction row with a fresh UUID and `block_id` pointing at the
parent block row. -/
def transactionModelFromResponse (id block_id : Nat) (tx : TxResponse) :
    DbTxRow :=
  { id := id, block_id := block_id, height := tx.height, hash := tx.hash,
    code := tx.code, gas_wanted := tx.gas_wanted, gas_used := tx.gas_used,
    events := tx.events, log := tx.log, info := tx.info }

/-! ## Transaction indexing (`src/indexer/mod.rs`) -/

/-- The pagination `while` loop of `index_transactions_for_block`
(mod.rs lines 208–236), as a recursion on the remaining transaction
count.  Returns the accumulated transactions (or the first error) and
the trace of `tx_search` requests issued.  The 60-second page timeout
firing and RPC transport failures are both error answers of the
oracle. -/
def fetchTxsLoop (rpc : TxSearchCall → Except String (List TxResponse))
    (height num_txs found : Int) (current_page : Nat) :
    Except String (List TxResponse) × List TxSearchCall :=
  if h : found < num_txs then
    let res := get_transactions_for_block rpc height (current_page + 1)
    match res.1 with
    | .error e => (.error ("Failed to get transactions for height: " ++ e),
                   [res.2])
    | .ok page_txs =>
      if hempty : page_txs.isEmpty then
        (.error "No transactions found from RPC for block with transactions",
         [res.2])
      else
        let r := fetchTxsLoop rpc height num_txs
          (found + (page_txs.length : Int)) (current_page + 1)
        (match r.1 with
         | .error e => .error e
         | .ok rest => .ok (page_txs ++ rest),
         res.2 :: r.2)
  else (.ok [], [])
termination_by (num_txs - found).toNat
decreasing_by
  simp_wf
  have hlen : 0 < page_txs.length := by
    cases page_txs with
    | nil => simp at hempty
    | cons a l => simp
  omega

structure TxIndexResult where
  db : DbState
  result : Except String Unit
  trace : List TxSearchCall

/-- `index_transactions_for_block` (mod.rs lines 193–268): paginate
`tx_search` until `num_txs` transactions are accumulated, filter them
by the configured filters (AND across filters), and insert the
survivors one by one with fresh UUIDs. -/
def index_transactions_for_block (db : DbState)
    (rpc : TxSearchCall → Except String (List TxResponse))
    (filters : List Filter) (block : DbBlockRow) : TxIndexResult :=
  let fetched := fetchTxsLoop rpc block.height block.num_txs 0 0
  match fetched.1 with
  | .error e => ⟨db, .error e, fetched.2⟩
  | .ok txs =>
      let kept := txs.filter (fun tx => transactionKept filters tx.events)
      let db2 := kept.foldl (fun d tx =>
        { d with
          txs := d.txs ++ [transactionModelFromResponse d.nextUuid block.id tx],
          nextUuid := d.nextUuid + 1 }) db
      ⟨db2, .ok (), fetched.2⟩

/-! ## Retry strategies (`tokio_retry`)

`Retry::spawn(strategy, action)` runs the action once and then, for
each remaining delay of the strategy iterator, sleeps and retries; when
the iterator is exhausted the last error is surfaced.  So a strategy of
`n` delays allows `n` retries after the initial attempt: `n + 1`
executions in total. -/

/-- `(curr, next)` state of `FibonacciBackoff::from_millis(base)` after
`n` calls to `next()`. -/
def fibonacciBackoffState (base : Nat) : Nat → Nat × Nat
  | 0 => (base, base)
  | n + 1 =>
      let s := fibonacciBackoffState base n
      (s.2, s.1 + s.2)

/-- The `n`-th delay (in ms) produced by
`FibonacciBackoff::from_millis(base)`. -/
def fibonacciDelay (base n : Nat) : Nat := (fibonacciBackoffState base n).1

/-- `FibonacciBackoff::from_millis(base).map(jitterF).take(takeCount)`
as the finite list of delays it yields.  `jitterF` abstracts the random
jitter applied to each delay. -/
def strategyDelays (base : Nat) (jitterF : Nat → Nat) (takeCount : Nat) :
    List Nat :=
  (List.range takeCount).map (fun i => jitterF (fibonacciDelay base i))

/-- The strategy of the inner transaction-indexing retry
(mod.rs line 159): `FibonacciBackoff::from_millis(50).map(jitter).take(15)`. -/
def innerRetryDelays (jitterF : Nat → Nat) : List Nat :=
  strategyDelays 50 jitterF 15

/-- The strategy of the outer block-level retry (system.rs line 93):
`FibonacciBackoff::from_millis(100).map(jitter).take(10)`. -/
def outerRetryDelays (jitterF : Nat → Nat) : List Nat :=
  strategyDelays 100 jitterF 10

/-- `Retry::spawn` over an explicit delay list, counting executions of
the action: run the action; on success stop, on failure consume one
delay and retry, surfacing the error when no delay is left.  The
second component is the number of executions. -/
def retrySpawnCount : List Nat → (Nat → Except String Unit) → Nat →
    Except String Unit × Nat
  | [], act, attempt =>
      match act attempt with
      | .ok u => (.ok u, 1)
      | .error e => (.error e, 1)
  | _ :: ds, act, attempt =>
      match act attempt with
      | .ok u => (.ok u, 1)
      | .error _ =>
          let r := retrySpawnCount ds act (attempt + 1)
          (r.1, r.2 + 1)

/-- The outer retry whose action runs the inner retry, counting total
executions of the innermost action (`act o i` is inner attempt `i` of
outer attempt `o`): run the inner retry once per outer attempt; when it
fails and an outer delay remains, retry. -/
def retryComposedCount (innerDelays : List Nat)
    (act : Nat → Nat → Except String Unit) :
    List Nat → Nat → Nat
  | [], outerAttempt => (retrySpawnCount innerDelays (act outerAttempt) 0).2
  | _ :: ds, outerAttempt =>
      match (retrySpawnCount innerDelays (act outerAttempt) 0).1 with
      | .ok _ => (retrySpawnCount innerDelays (act outerAttempt) 0).2
      | .error _ =>
          (retrySpawnCount innerDelays (act outerAttempt) 0).2
            + retryComposedCount innerDelays act ds (outerAttempt + 1)

/-- `Retry::spawn` around a state-passing action: `retries` is the
number of delays of the strategy, so up to `retries + 1` executions.
Failed attempts keep their state changes, as the real code's partial
database writes do. -/
def retryStateRun {σ : Type} (retries : Nat) (act : σ → σ × Except String Unit)
    (s : σ) : σ × Except String Unit :=
  match act s with
  | (s1, .ok u) => (s1, .ok u)
  | (s1, .error e) =>
      match retries with
      | 0 => (s1, .error e)
      | r + 1 => retryStateRun r act s1

/-! ## Block indexing (`src/indexer/mod.rs`, `index_block`) -/

/-- The `match block_insert_result` of `index_block`
(mod.rs lines 155–185): on success, run the transaction indexing under
the 15-delay Fibonacci retry when `num_txs > 0`; a `DbErr::Query`
whose message contains the unique-violation phrase is swallowed; any
other error bubbles up. -/
def handle_block_insert_result (db : DbState)
    (rpc : TxSearchCall → Except String (List TxResponse))
    (filters : List Filter)
    (res : Except DbErr (DbState × DbBlockRow)) : DbState × Except String Unit :=
  match res with
  | .ok (db1, blockRow) =>
      if 0 < blockRow.num_txs then
        retryStateRun 15 (fun d =>
          let r := index_transactions_for_block d rpc filters blockRow
          (r.db, r.result)) db1
      else (db1, .ok ())
  | .error err =>
      match err with
      | .Query message =>
          if strContains message duplicateKeyPhrase then
            (db, .ok ())
          else
            (db, .error ("Failed to insert block: " ++ message))
      | .Other message => (db, .error ("Unexpected error " ++ message))

/-- `index_block` (mod.rs lines 147–188): build the row, attempt the
insert, and dispatch on the result. -/
def index_block (db : DbState)
    (rpc : TxSearchCall → Except String (List TxResponse))
    (filters : List Filter) (block : Block) : DbState × Except String Unit :=
  handle_block_insert_result db rpc filters
    (insertBlockRow (blockModelFrom db block).2 (blockModelFrom db block).1)

/-! ## Indexer worker loop (`src/indexer/system.rs`, `run`) -/

def chainMismatchWarn (expected found : String) : String :=
  "Chain ID mismatch, expected " ++ expected ++ " but found " ++ found

def skipNotice : String := "No further processing will be done for this block"

/-- One iteration of the worker's `while let Ok(block)` loop
(system.rs lines 74–117): the chain-id guard, then `index_block` under
the 10-delay Fibonacci retry.  Returns the database, the warnings
logged, and the loop outcome (`error` aborts the worker). -/
def processBlock (expected_chain_id : String)
    (rpc : TxSearchCall → Except String (List TxResponse))
    (filters : List Filter) (db : DbState) (block : Block) :
    DbState × List String × Except String Unit :=
  let chain_id := block.header.chain_id
  if chain_id ≠ expected_chain_id then
    (db, [chainMismatchWarn expected_chain_id chain_id, skipNotice], .ok ())
  else
    let r := retryStateRun 10 (fun d => index_block d rpc filters block) db
    (r.1, [], r.2)

/-- The worker loop over a finite sequence of received blocks: process
each block in order, stopping when a block's retries are exhausted. -/
def runWorker (expected_chain_id : String)
    (rpc : TxSearchCall → Except String (List TxResponse))
    (filters : List Filter) : DbState → List Block →
    DbState × List String × Except String Unit
  | db, [] => (db, [], .ok ())
  | db, b :: rest =>
      let r := processBlock expected_chain_id rpc filters db b
      match r.2.2 with
      | .error e => (r.1, r.2.1, .error e)
      | .ok _ =>
          let r2 := runWorker expected_chain_id rpc filters r.1 rest
          (r2.1, r.2.1 ++ r2.2.1, r2.2.2)

/-! ## Sequencer

Modelled from the spec: the `croncat_pipeline::Sequencer` used by
`system.rs` lines 55–58 is an external crate whose source is not in
this repository.  Per §4.3 of the specification it maintains an
ordered set of pending blocks keyed by height, bounded by the capacity
`C`; an incoming block whose height equals a buffered height or is not
above the last emitted height is discarded; when the set reaches `C`
the smallest buffered block is emitted; on upstream closure the buffer
is drained in ascending order. -/

structure SequencerState where
  pending : List Block
  lastEmitted : Option Nat

/-- Insert a block into the height-ordered pending buffer (the caller
has already ruled out a duplicate height). -/
def insertPendingByHeight (b : Block) : List Block → List Block
  | [] => [b]
  | p :: rest =>
      if b.header.height < p.header.height then b :: p :: rest
      else p :: insertPendingByHeight b rest

/-- Modelled from the spec (§4.3 Dedup/Monotonicity): drop an incoming
height that is already buffered or not above the last emitted
height. -/
def seqDrop (st : SequencerState) (h : Nat) : Bool :=
  st.pending.any (fun p => p.header.height == h) ||
    (match st.lastEmitted with
     | some l => decide (h ≤ l)
     | none => false)

/-- Modelled from the spec (§4.3 Emission): one sequencer step.
Returns the new state and the blocks emitted by this step. -/
def seqStep (cap : Nat) (st : SequencerState) (b : Block) :
    SequencerState × List Block :=
  if seqDrop st b.header.height then (st, [])
  else
    let pending := insertPendingByHeight b st.pending
    if cap ≤ pending.length then
      match pending with
      | [] => (st, [])
      | m :: rest =>
          ({ pending := rest, lastEmitted := some m.header.height }, [m])
    else ({ st with pending := pending }, [])

/-- Run the sequencer over a finite input sequence. -/
def seqRun (cap : Nat) : SequencerState → List Block →
    SequencerState × List Block
  | st, [] => (st, [])
  | st, b :: rest =>
      let r := seqStep cap st b
      let r2 := seqRun cap r.1 rest
      (r2.1, r.2 ++ r2.2)

/-- The full output of one sequencer run: the emissions during the run
followed by the drain of the remaining buffer on upstream closure. -/
def sequencerOutput (cap : Nat) (blocks : List Block) : List Block :=
  let r := seqRun cap ⟨[], none⟩ blocks
  r.2 ++ r.1.pending

/-- The heights of a list of blocks. -/
def heights (l : List Block) : List Nat :=
  l.map (fun blk => blk.header.height)

/-- Invariant tying a sequencer state to the heights emitted so far:
emitted heights are strictly increasing, the buffer is strictly sorted,
everything emitted is at most the last emitted height, everything
buffered is above it, and nothing was emitted before the first
emission. -/
structure SeqInv (st : SequencerState) (out : List Nat) : Prop where
  outSorted : out.Pairwise (· < ·)
  pendSorted : (heights st.pending).Pairwise (· < ·)
  outBelow : ∀ l, st.lastEmitted = some l → ∀ e ∈ out, e ≤ l
  pendAbove : ∀ l, st.lastEmitted = some l → ∀ p ∈ heights st.pending, l < p
  noneEmpty : st.lastEmitted = none → out = []

/-! ### Concrete inputs used by witnesses and counterexamples -/

/-- A block at height 100 on chain `uni-5` with one transaction. -/
def blockUni5 : Block :=
  ⟨{ header := { height := 100, chain_id := "uni-5", time := 1665500000,
                 hashVal := "aa".pushn 'a' 62 },
     data := ["tx-bytes"] }⟩

/-- The row `index_block` would build for `blockUni5` from a fresh
database. -/
def dbWithBlockUni5 : DbState :=
  { blocks := [(blockModelFrom ⟨[], [], 0⟩ blockUni5).1], txs := [], nextUuid := 1 }

/-- A concrete fetched transaction at height 100. -/
def txCafe : TxResponse :=
  { hash := "cafe", height := 100, code := 0, gas_wanted := 1,
    gas_used := 1, events := [⟨"message", [⟨"action", "MsgSend"⟩]⟩],
    log := "", info := "" }

/-- An RPC oracle answering every `tx_search` page 1 with one
transaction and later pages with nothing. -/
def rpcOneTx : TxSearchCall → Except String (List TxResponse) :=
  fun call => if call.page == 1 then .ok [txCafe] else .ok []

/-- A placeholder block returned by the `get_block` oracle. -/
def tmBlockZero : TmBlock := ⟨⟨0, "chain", 0, "hash"⟩, []⟩

/-- Two pipeline blocks at the same height 7 that differ in chain id,
time and hash. -/
def blockSevenA : Block := ⟨⟨⟨7, "uni-5", 10, "hash-a"⟩, []⟩⟩

def blockSevenB : Block := ⟨⟨⟨7, "uni-6", 11, "hash-b"⟩, ["tx"]⟩⟩

/-- A stored block row at height 100 announcing two transactions. -/
def rowTwoTxs : DbBlockRow :=
  { id := 0, height := 100, chain_id := "uni-5", time := 0,
    hash := "h", num_txs := 2 }

/-- The gap of the repository's own iterator unit test:
`start = 1`, `end = 3`. -/
def gapOneToThree : BlockGap := ⟨0, 1, 3⟩

/-- A retried action that fails on every attempt. -/
def alwaysFailAct : Nat → Except String Unit :=
  fun _ => .error "transaction fetch failed"

/-! ## Theorems -/

/-- Number of attribute filters of `f` that a single attribute satisfies:
key regex matches and, when a value regex is present, the value matches. -/
def attrFilterHits (f : Filter) (a : Attribute) : Nat :=
  f.attributes.countP (fun flt =>
    flt.key.is_match a.key &&
      (match flt.value with
       | some value => value.is_match a.value
       | none => true))

/-- Contribution of one event to the `matches` counter: `0` when the type
pattern rejects the event, otherwise `1` plus one per
(attribute, attribute-filter) pair that matches. -/
def eventHits (f : Filter) (e : Event) : Nat :=
  if f.type_str.is_match e.type_str then
    1 + (e.attributes.map (attrFilterHits f)).sum
  else 0

/-- Total of the `matches` counter over the whole event list. -/
def filterMatchTotal (f : Filter) (events : List Event) : Nat :=
  (events.map (eventHits f)).sum

theorem foldl_attrFilters (f : Filter) (a : Attribute) (m : Nat) :
    f.attributes.foldl
      (fun m2 flt =>
        if flt.key.is_match a.key then
          match flt.value with
          | some value => if value.is_match a.value then m2 + 1 else m2
          | none => m2 + 1
        else m2)
      m = m + attrFilterHits f a := by
  unfold attrFilterHits
  generalize f.attributes = l
  induction l generalizing m with
  | nil => simp
  | cons hd tl ih =>
      simp only [List.foldl_cons, List.countP_cons]
      rw [ih]
      cases hk : hd.key.is_match a.key with
      | false => simp [hk]
      | true =>
          cases hv : hd.value with
          | none => simp [hk, hv]; omega
          | some v =>
              cases hm : v.is_match a.value with
              | false => simp [hk, hv, hm]
              | true => simp [hk, hv, hm]; omega

theorem foldl_eventAttrs (f : Filter) (attrs : List Attribute) (m : Nat) :
    attrs.foldl
      (fun m attr =>
        f.attributes.foldl
          (fun m2 flt =>
            if flt.key.is_match attr.key then
              match flt.value with
              | some value => if value.is_match attr.value then m2 + 1 else m2
              | none => m2 + 1
            else m2)
          m)
      m = m + (attrs.map (attrFilterHits f)).sum := by
  induction attrs generalizing m with
  | nil => simp
  | cons hd tl ih =>
      simp only [List.foldl_cons, List.map_cons, List.sum_cons]
      rw [foldl_attrFilters, ih]
      omega

theorem matchCount_aux (f : Filter) (events : List Event) (m₀ : Nat) :
    events.foldl
      (fun ms event =>
        if f.type_str.is_match event.type_str then
          event.attributes.foldl
            (fun m attr =>
              f.attributes.foldl
                (fun m2 flt =>
                  if flt.key.is_match attr.key then
                    match flt.value with
                    | some value =>
                        if value.is_match attr.value then m2 + 1 else m2
                    | none => m2 + 1
                  else m2)
                m)
            (ms + 1)
        else ms)
      m₀ = m₀ + (events.map (eventHits f)).sum := by
  induction events generalizing m₀ with
  | nil => simp
  | cons hd tl ih =>
      simp only [List.foldl_cons, List.map_cons, List.sum_cons]
      cases ht : f.type_str.is_match hd.type_str with
      | false =>
          rw [if_neg (by simp [ht]), ih]
          simp [eventHits, ht]
      | true =>
          rw [if_pos (by simp [ht]), foldl_eventAttrs, ih]
          simp [eventHits, ht]
          omega

theorem matchCount_eq_total (f : Filter) (events : List Event) :
    f.matchCount events = filterMatchTotal f events := by
  unfold Filter.matchCount filterMatchTotal
  rw [matchCount_aux]
  omega

theorem foldl_filterCount_aux (filters : List Filter) (events : List Event)
    (m₀ : Nat) :
    filters.foldl (fun ms flt =>
        if flt.matchesEvents events then ms + 1 else ms) m₀
      = m₀ + filters.countP (fun flt => flt.matchesEvents events) := by
  induction filters generalizing m₀ with
  | nil => simp
  | cons hd tl ih =>
      simp only [List.foldl_cons, List.countP_cons]
      cases hm : hd.matchesEvents events with
      | false => rw [if_neg (by simp [hm]), ih]; simp [hm]
      | true => rw [if_pos (by simp [hm]), ih]; simp [hm]; omega

theorem countP_eq_length_iff_all {α : Type} (p : α → Bool) (l : List α) :
    (l.countP p == l.length) = l.all p := by
  cases hall : l.all p with
  | true =>
      have h := List.all_eq_true.mp hall
      have : l.countP p = l.length := List.countP_eq_length.mpr h
      simp [this]
  | false =>
      have hnot : ¬ ∀ a ∈ l, p a = true := by
        intro hcon
        rw [List.all_eq_true.mpr hcon] at hall
        cases hall
      have hne : l.countP p ≠ l.length := fun he =>
        hnot (List.countP_eq_length.mp he)
      simp [hne]

/-! ### Claim C1 — filter AND law -/

/-- Claim C1 (amended): a fetched transaction is kept for persistence iff
every configured filter matches its event list, where a single filter
matches iff its match counter — one per event whose type matches the type
pattern, plus one per (attribute, attribute-filter) pair inside such an
event whose key regex matches and whose value regex, when present,
matches — equals the number of attribute filters plus one. -/
theorem claim1_filter_and_law (filters : List Filter) (events : List Event) :
    transactionKept filters events
      = filters.all (fun flt =>
          filterMatchTotal flt events == flt.attributes.length + 1) := by
  unfold transactionKept
  rw [foldl_filterCount_aux, Nat.zero_add, countP_eq_length_iff_all]
  congr 1
  funext flt
  simp only [Filter.matchesEvents, matchCount_eq_total]

/-- Claim C1 counterexample: against the single filter `filterMsgAction`
and the event list `twoMessageEvents`, the code keeps the transaction
(both type-matching events count, reaching `attributes.len() + 1`),
although under the claim's reading — exactly one type-matching event
whose attributes satisfy every attribute filter — the filter does not
match, so the claimed iff fails at this input. -/
theorem claim1_counterexample :
    transactionKept [filterMsgAction] twoMessageEvents = true ∧
    specFilterMatches filterMsgAction twoMessageEvents = false :=
  ⟨rfl, rfl⟩

/-! ### Claim C4 — BlockGap iteration -/

theorem blockGap_toList_pos (t s e : Int) (h : s ≤ e) :
    (BlockGap.mk t s e).toList =
      ⟨(s, e)⟩ :: (BlockGap.mk t (s + 1) e).toList := by
  conv_lhs => rw [BlockGap.toList]
  rw [if_pos h]

theorem blockGap_toList_neg (t s e : Int) (h : e < s) :
    (BlockGap.mk t s e).toList = [] := by
  rw [BlockGap.toList]
  rw [if_neg (show ¬ (s ≤ e) by omega)]

theorem blockGap_toList_length (t e : Int) :
    ∀ (n : Nat) (s : Int), s ≤ e → (e - s).toNat = n →
    (BlockGap.mk t s e).toList.length = (e - s + 1).toNat := by
  intro n
  induction n using Nat.strong_induction_on with
  | _ n ih =>
      intro s h hn
      rw [blockGap_toList_pos t s e h, List.length_cons]
      rcases lt_or_eq_of_le h with hlt | heq
      · rw [ih (e - (s + 1)).toNat (by omega) (s + 1) (by omega) rfl]
        omega
      · rw [blockGap_toList_neg t (s + 1) e (by omega)]
        simp
        omega

theorem blockGap_toList_get (t e : Int) :
    ∀ (n : Nat) (s : Int), s ≤ e → (e - s).toNat = n →
    ∀ i : Nat, i < (BlockGap.mk t s e).toList.length →
    (BlockGap.mk t s e).toList.get? i = some ⟨(s + i, e)⟩ := by
  intro n
  induction n using Nat.strong_induction_on with
  | _ n ih =>
      intro s h hn i hi
      cases i with
      | zero =>
          rw [blockGap_toList_pos t s e h]
          simp
      | succ j =>
          have hj : j < (BlockGap.mk t (s + 1) e).toList.length := by
            rw [blockGap_toList_pos t s e h, List.length_cons] at hi
            exact Nat.lt_of_succ_lt_succ hi
          have hlt : s < e := by
            by_contra hcon
            have hnil : (BlockGap.mk t (s + 1) e).toList = [] :=
              blockGap_toList_neg t (s + 1) e (by omega)
            rw [hnil] at hj
            simp at hj
          have hrec := ih (e - (s + 1)).toNat (by omega) (s + 1) (by omega) rfl j hj
          rw [blockGap_toList_pos t s e h]
          show (BlockGap.mk t (s + 1) e).toList.get? j
            = some ⟨(s + (((j + 1) : Nat) : Int), e)⟩
          rw [hrec]
          simp only [Option.some.injEq, BlockRange.mk.injEq, Prod.mk.injEq]
          refine ⟨by push_cast; ring, trivial⟩

/-- Claim C4 (amended): for every `BlockGap` with `start ≤ end`,
iterating yields exactly `end − start + 1` ranges, but the `i`-th
yielded range is `(start + i, end)` — its first component walks the
single heights `start..end` while the second stays `end` — and a gap
with `start > end` yields nothing. -/
theorem claim4_blockgap_iteration (g : BlockGap) :
    (g.start ≤ g.«end» →
      g.toList.length = (g.«end» - g.start + 1).toNat ∧
      ∀ i : Nat, i < g.toList.length →
        g.toList.get? i = some ⟨(g.start + i, g.«end»)⟩) ∧
    (g.«end» < g.start → g.toList = []) :=
  ⟨fun h =>
    ⟨blockGap_toList_length g.start_time g.«end» (g.«end» - g.start).toNat
        g.start h rfl,
     fun i hi => blockGap_toList_get g.start_time g.«end»
        (g.«end» - g.start).toNat g.start h rfl i hi⟩,
   fun h => blockGap_toList_neg g.start_time g.start g.«end» h⟩

/-- Claim C4 witness: the gap `(start = 5, end = 7)` yields three
ranges and its second yield is `(6, 7)`. -/
theorem claim4_witness :
    ((5 : Int) ≤ 7) ∧
    (⟨0, 5, 7⟩ : BlockGap).toList.length = 3 ∧
    (⟨0, 5, 7⟩ : BlockGap).toList.get? 1 = some ⟨(6, 7)⟩ := by
  have h := (claim4_blockgap_iteration ⟨0, 5, 7⟩).1 (by norm_num)
  have hlen : (⟨0, 5, 7⟩ : BlockGap).toList.length = 3 := by
    rw [h.1]; rfl
  refine ⟨by norm_num, hlen, ?_⟩
  have hg := h.2 1 (by rw [hlen]; norm_num)
  simpa using hg

/-- Claim C4 counterexample: on the gap `(start = 1, end = 3)` — the
gap of the repository's own iterator unit test — the first yielded
range is `(1, 3)`, which covers the three heights 1..3, not only the
single height 1 as the claim states. -/
theorem claim4_counterexample :
    gapOneToThree.next = some (⟨(1, 3)⟩, ⟨0, 2, 3⟩) ∧
    (⟨(1, 3)⟩ : BlockRange) ≠ ⟨(1, 1)⟩ := by
  exact ⟨rfl, by decide⟩

/-! ### Claim C8 — websocket adapter fatal errors -/

/-- Claim C8: in the websocket block-source adapter, a receive timeout
(60 seconds without any event) yields a fatal `Timeout` error that is the
stream's last item; a `NewBlock` event without a block payload yields a
fatal `EventWithoutBlock` error, also terminal; and a `NewBlock` event
with a payload is passed through, so errors are surfaced to the consumer
rather than swallowed. -/
theorem claim8_ws_fatal_errors :
    ∀ (rest : List RecvOutcome) (b : TmBlock),
    ws_block_stream (RecvOutcome.timeout :: rest)
      = [.error (.Timeout 60)] ∧
    ws_block_stream (RecvOutcome.item (.ok ⟨.newBlock none⟩) :: rest)
      = [.error .EventWithoutBlock] ∧
    ws_block_stream (RecvOutcome.item (.ok ⟨.newBlock (some b)⟩) :: rest)
      = .ok ⟨b⟩ :: ws_block_stream rest ∧
    recv_timeout_duration = 60 := by
  intro rest b
  exact ⟨rfl, rfl, rfl, rfl⟩

/-! ### Claim C9 — pipeline block identity is the height -/

/-- Claim C9: equality and ordering of pipeline `Block` values are
determined solely by the header height: two blocks with the same height
compare equal (`beq`) and order as `Ordering.eq` (`cmp`) regardless of
their other fields, so dedup by block equality conflates distinct blocks
at the same height. -/
theorem claim9_block_identity (a b : Block)
    (h : a.header.height = b.header.height) :
    Block.beq a b = true ∧ Block.cmp a b = Ordering.eq := by
  unfold Block.beq Block.cmp
  rw [h]
  exact ⟨by simp, by simp [compare_eq_iff_eq]⟩

/-- Claim C9 witness: `blockSevenA` and `blockSevenB` are distinct blocks
(different chain id, time, hash and payload) at the same height 7, yet
they compare equal and order as `eq`. -/
theorem claim9_witness :
    blockSevenA ≠ blockSevenB ∧
    Block.beq blockSevenA blockSevenB = true ∧
    Block.cmp blockSevenA blockSevenB = Ordering.eq :=
  ⟨by decide, (claim9_block_identity blockSevenA blockSevenB rfl).1,
    (claim9_block_identity blockSevenA blockSevenB rfl).2⟩

/-! ### Claim C10 — `get_block` truncates the height -/

/-- Claim C10: `get_block` issues the RPC request for the height
truncated to an unsigned 32-bit value, `h mod 2^32`; for every height
outside `0..2^32` the requested height differs from the asked-for
height. -/
theorem claim10_height_truncation (rpc : Nat → TmBlock) (h : Int) :
    ((get_block rpc h).2 : Int) = h % 2 ^ 32 ∧
    (h < 0 ∨ 2 ^ 32 ≤ h → ((get_block rpc h).2 : Int) ≠ h) := by
  have hmod : ((i64_as_u32 h : Nat) : Int) = h % 2 ^ 32 := by
    unfold i64_as_u32
    rw [Int.toNat_of_nonneg (Int.emod_nonneg h (by norm_num))]
  refine ⟨hmod, fun hcase => ?_⟩
  rw [show (get_block rpc h).2 = i64_as_u32 h from rfl, hmod]
  have h0 : 0 ≤ h % 2 ^ 32 := Int.emod_nonneg h (by norm_num)
  have h1 : h % 2 ^ 32 < 2 ^ 32 := Int.emod_lt_of_pos h (by norm_num)
  rcases hcase with hneg | hbig <;> omega

/-- Claim C10 witness: asking for height `2^32 + 5 = 4294967301` issues
a request for height 5. -/
theorem claim10_witness :
    ((4294967301 : Int) < 0 ∨ (2 : Int) ^ 32 ≤ 4294967301) ∧
    ((get_block (fun _ => tmBlockZero) 4294967301).2 : Int) ≠ 4294967301 ∧
    (get_block (fun _ => tmBlockZero) 4294967301).2 = 5 :=
  ⟨Or.inr (by norm_num),
   (claim10_height_truncation (fun _ => tmBlockZero) 4294967301).2
     (Or.inr (by norm_num)),
   by decide⟩

/-! ### Claim C3 — retry attempt bounds -/

theorem retrySpawnCount_le (delays : List Nat) (act : Nat → Except String Unit)
    (attempt : Nat) :
    (retrySpawnCount delays act attempt).2 ≤ delays.length + 1 := by
  induction delays generalizing attempt with
  | nil =>
      cases hact : act attempt <;> simp [retrySpawnCount, hact]
  | cons d ds ih =>
      cases hact : act attempt with
      | ok u => simp [retrySpawnCount, hact]
      | error e =>
          simp only [retrySpawnCount, hact, List.length_cons]
          have := ih (attempt + 1)
          omega

theorem strategyDelays_length (base : Nat) (jitterF : Nat → Nat)
    (takeCount : Nat) :
    (strategyDelays base jitterF takeCount).length = takeCount := by
  unfold strategyDelays
  simp

theorem retryComposedCount_le (innerDelays : List Nat)
    (act : Nat → Nat → Except String Unit) (outerDelays : List Nat)
    (oAttempt : Nat) :
    retryComposedCount innerDelays act outerDelays oAttempt
      ≤ (outerDelays.length + 1) * (innerDelays.length + 1) := by
  induction outerDelays generalizing oAttempt with
  | nil =>
      have h1 := retrySpawnCount_le innerDelays (act oAttempt) 0
      simp only [retryComposedCount, List.length_nil]
      omega
  | cons d ds ih =>
      have h1 := retrySpawnCount_le innerDelays (act oAttempt) 0
      have h2 := ih (oAttempt + 1)
      have hmul : 1 * (innerDelays.length + 1)
          ≤ (ds.length + 1 + 1) * (innerDelays.length + 1) :=
        Nat.mul_le_mul_right _ (by omega)
      cases hr : (retrySpawnCount innerDelays (act oAttempt) 0).1 with
      | ok u =>
          simp only [retryComposedCount, hr, List.length_cons]
          omega
      | error e =>
          simp only [retryComposedCount, hr, List.length_cons]
          have hexpand : (ds.length + 1 + 1) * (innerDelays.length + 1)
              = (ds.length + 1) * (innerDelays.length + 1)
                + (innerDelays.length + 1) := by ring
          omega

/-- Claim C3 (amended): with the strategies the code passes to
`Retry::spawn` — inner `FibonacciBackoff::from_millis(50).map(jitter).take(15)`,
outer `FibonacciBackoff::from_millis(100).map(jitter).take(10)` — the
inner transaction-indexing retry executes its action at most 16 times
(one initial attempt plus 15 retries) before surfacing its error, the
outer block-level retry executes its action at most 11 times (one plus
10), and the composed retries execute the innermost action at most
16 × 11 = 176 times before a terminal error, whatever the jitter. -/
theorem claim3_retry_bounds (jitterF : Nat → Nat)
    (act : Nat → Except String Unit) (attempt : Nat)
    (act2 : Nat → Nat → Except String Unit) (oAttempt : Nat) :
    (retrySpawnCount (innerRetryDelays jitterF) act attempt).2 ≤ 16 ∧
    (retrySpawnCount (outerRetryDelays jitterF) act attempt).2 ≤ 11 ∧
    retryComposedCount (innerRetryDelays jitterF) act2
        (outerRetryDelays jitterF) oAttempt ≤ 176 := by
  have hi : (innerRetryDelays jitterF).length = 15 :=
    strategyDelays_length 50 jitterF 15
  have ho : (outerRetryDelays jitterF).length = 10 :=
    strategyDelays_length 100 jitterF 10
  refine ⟨?_, ?_, ?_⟩
  · have := retrySpawnCount_le (innerRetryDelays jitterF) act attempt
    omega
  · have := retrySpawnCount_le (outerRetryDelays jitterF) act attempt
    omega
  · have := retryComposedCount_le (innerRetryDelays jitterF) act2
      (outerRetryDelays jitterF) oAttempt
    rw [hi, ho] at this
    omega

/-- Claim C3 counterexample: an action that fails on every attempt is
executed exactly 16 times by the inner retry — not at most 15 as the
claim states — and 176 times by the composed retries. -/
theorem claim3_counterexample :
    (retrySpawnCount (innerRetryDelays id) alwaysFailAct 0).2 = 16 ∧
    ¬ ((retrySpawnCount (innerRetryDelays id) alwaysFailAct 0).2 ≤ 15) ∧
    retryComposedCount (innerRetryDelays id) (fun _ i => alwaysFailAct i)
        (outerRetryDelays id) 0 = 176 := by
  refine ⟨by decide, by decide, by decide⟩

/-! ### String containment -/

theorem isPrefixOf_append_self (l t : List Char) :
    l.isPrefixOf (l ++ t) = true := by
  induction l with
  | nil => simp [List.isPrefixOf]
  | cons a as ih => simp [List.isPrefixOf, ih]

theorem strContains_append_self (p s : String) :
    strContains (p ++ s) p = true := by
  unfold strContains
  rw [List.any_eq_true]
  refine ⟨(p ++ s).toList, (List.mem_tails _ _).mpr (List.suffix_refl _), ?_⟩
  have hd : (p ++ s).toList = p.toList ++ s.toList := by
    simp [String.toList]
  rw [hd]
  exact isPrefixOf_append_self _ _

/-! ### Unfolding lemmas for the pagination loop and the retries -/

theorem fetchTxsLoop_done (rpc : TxSearchCall → Except String (List TxResponse))
    (height num_txs found : Int) (page : Nat) (hge : ¬ found < num_txs) :
    fetchTxsLoop rpc height num_txs found page = (.ok [], []) := by
  rw [fetchTxsLoop]
  rw [dif_neg hge]

theorem fetchTxsLoop_step_error
    (rpc : TxSearchCall → Except String (List TxResponse))
    (height num_txs found : Int) (page : Nat) (e : String)
    (hlt : found < num_txs)
    (herr : rpc (txPageCall height (page + 1)) = .error e) :
    fetchTxsLoop rpc height num_txs found page
      = (.error ("Failed to get transactions for height: " ++ e),
         [txPageCall height (page + 1)]) := by
  rw [fetchTxsLoop]
  rw [dif_pos hlt]
  simp [get_transactions_for_block, herr]

theorem fetchTxsLoop_step_empty
    (rpc : TxSearchCall → Except String (List TxResponse))
    (height num_txs found : Int) (page : Nat)
    (hlt : found < num_txs)
    (hok : rpc (txPageCall height (page + 1)) = .ok []) :
    fetchTxsLoop rpc height num_txs found page
      = (.error "No transactions found from RPC for block with transactions",
         [txPageCall height (page + 1)]) := by
  rw [fetchTxsLoop]
  rw [dif_pos hlt]
  simp [get_transactions_for_block, hok]

theorem fetchTxsLoop_step_cons
    (rpc : TxSearchCall → Except String (List TxResponse))
    (height num_txs found : Int) (page : Nat) (t : TxResponse)
    (ts : List TxResponse)
    (hlt : found < num_txs)
    (hok : rpc (txPageCall height (page + 1)) = .ok (t :: ts)) :
    fetchTxsLoop rpc height num_txs found page
      = ((match (fetchTxsLoop rpc height num_txs
            (found + (((t :: ts).length : Nat) : Int)) (page + 1)).1 with
          | .error e => .error e
          | .ok rest => .ok ((t :: ts) ++ rest)),
         txPageCall height (page + 1)
           :: (fetchTxsLoop rpc height num_txs
                (found + (((t :: ts).length : Nat) : Int)) (page + 1)).2) := by
  rw [fetchTxsLoop]
  rw [dif_pos hlt]
  simp [get_transactions_for_block, hok]

theorem retryStateRun_first_ok {σ : Type} (retries : Nat)
    (act : σ → σ × Except String Unit) (s s1 : σ)
    (hok : act s = (s1, .ok ())) :
    retryStateRun retries act s = (s1, .ok ()) := by
  rw [retryStateRun]
  rw [hok]

/-! ### Claim C6 — transaction pagination -/

theorem fetchTxsLoop_spec (rpc : TxSearchCall → Except String (List TxResponse))
    (height num_txs : Int) :
    ∀ (n : Nat) (found : Int) (page : Nat), (num_txs - found).toNat = n →
    ((fetchTxsLoop rpc height num_txs found page).2.map (fun c => c.page)
        = List.range' (page + 1)
            (fetchTxsLoop rpc height num_txs found page).2.length) ∧
    (∀ c ∈ (fetchTxsLoop rpc height num_txs found page).2,
        c.per_page = 100 ∧ c.ord = RpcOrder.ascending ∧
        c.height = height ∧ c.prove = true) ∧
    (found < num_txs → (fetchTxsLoop rpc height num_txs found page).2 ≠ []) ∧
    (∀ txs, (fetchTxsLoop rpc height num_txs found page).1 = .ok txs →
        num_txs ≤ found + (txs.length : Int)) := by
  intro n
  induction n using Nat.strong_induction_on with
  | _ n ih =>
      intro found page hn
      by_cases hlt : found < num_txs
      · cases hcall : rpc (txPageCall height (page + 1)) with
        | error e =>
            rw [fetchTxsLoop_step_error rpc height num_txs found page e hlt hcall]
            refine ⟨by simp [List.range', txPageCall], ?_, by simp, by simp⟩
            intro c hc
            simp at hc
            subst hc
            exact ⟨rfl, rfl, rfl, rfl⟩
        | ok page_txs =>
            cases page_txs with
            | nil =>
                rw [fetchTxsLoop_step_empty rpc height num_txs found page hlt hcall]
                refine ⟨by simp [List.range', txPageCall], ?_, by simp, by simp⟩
                intro c hc
                simp at hc
                subst hc
                exact ⟨rfl, rfl, rfl, rfl⟩
            | cons t ts =>
                rw [fetchTxsLoop_step_cons rpc height num_txs found page t ts
                  hlt hcall]
                have hrec := ih (num_txs - (found + (((t :: ts).length : Nat) : Int))).toNat
                  (by
                    have hl : (0 : Int) < (((t :: ts).length : Nat) : Int) := by
                      exact_mod_cast Nat.succ_pos ts.length
                    omega)
                  (found + (((t :: ts).length : Nat) : Int)) (page + 1) rfl
                refine ⟨?_, ?_, by simp, ?_⟩
                · have h1 := hrec.1
                  generalize hT : (fetchTxsLoop rpc height num_txs
                      (found + (((t :: ts).length : Nat) : Int)) (page + 1)).2
                      = T2 at h1 ⊢
                  rw [List.map_cons, List.length_cons, h1]
                  simp [List.range', txPageCall]
                · intro c hc
                  simp only [List.mem_cons] at hc
                  rcases hc with hc | hc
                  · subst hc
                    exact ⟨rfl, rfl, rfl, rfl⟩
                  · exact hrec.2.1 c hc
                · intro txs htxs
                  simp only at htxs
                  cases hr : (fetchTxsLoop rpc height num_txs
                      (found + (((t :: ts).length : Nat) : Int)) (page + 1)).1 with
                  | error e => rw [hr] at htxs; cases htxs
                  | ok rest =>
                      rw [hr] at htxs
                      have hrest := hrec.2.2.2 rest hr
                      have hlen : txs = (t :: ts) ++ rest := by
                        cases htxs
                        rfl
                      subst hlen
                      simp only [List.length_append, List.length_cons] at hrest ⊢
                      push_cast at hrest ⊢
                      omega
      · rw [fetchTxsLoop_done rpc height num_txs found page hlt]
        refine ⟨by simp [List.range'], by simp, by simp [hlt], ?_⟩
        intro txs htxs
        simp only at htxs
        cases htxs
        simp
        omega

/-- Claim C6: for every block with `num_txs > 0`,
`index_transactions_for_block` requests `tx_search` pages 1, 2, 3, … (page
size 100, ascending order, the block's height, prove = true) in ascending
order; at least one page is requested; when the pagination loop errors —
an RPC failure, or an empty page while the accumulated count is below
`num_txs` — the function returns that error with the database unchanged
(no transaction inserted); and when the loop succeeds the accumulated
count is at least `num_txs`. -/
theorem claim6_tx_pagination (db : DbState)
    (rpc : TxSearchCall → Except String (List TxResponse))
    (filters : List Filter) (block : DbBlockRow)
    (hpos : 0 < block.num_txs) :
    ((index_transactions_for_block db rpc filters block).trace.map
        (fun c => c.page)
      = List.range' 1
          (index_transactions_for_block db rpc filters block).trace.length) ∧
    (∀ c ∈ (index_transactions_for_block db rpc filters block).trace,
        c.per_page = 100 ∧ c.ord = RpcOrder.ascending ∧
        c.height = block.height ∧ c.prove = true) ∧
    (index_transactions_for_block db rpc filters block).trace ≠ [] ∧
    (∀ e, (index_transactions_for_block db rpc filters block).result = .error e →
        (index_transactions_for_block db rpc filters block).db = db) ∧
    (∀ txs, (fetchTxsLoop rpc block.height block.num_txs 0 0).1 = .ok txs →
        block.num_txs ≤ (txs.length : Int)) := by
  have hspec := fetchTxsLoop_spec rpc block.height block.num_txs
    (block.num_txs - 0).toNat 0 0 rfl
  have htr : (index_transactions_for_block db rpc filters block).trace
      = (fetchTxsLoop rpc block.height block.num_txs 0 0).2 := by
    unfold index_transactions_for_block
    cases hr : (fetchTxsLoop rpc block.height block.num_txs 0 0).1 <;>
      simp [hr]
  refine ⟨?_, ?_, ?_, ?_, ?_⟩
  · rw [htr]
    simpa using hspec.1
  · rw [htr]
    exact hspec.2.1
  · rw [htr]
    exact hspec.2.2.1 hpos
  · intro e he
    cases hr : (fetchTxsLoop rpc block.height block.num_txs 0 0).1 with
    | error e2 => simp [index_transactions_for_block, hr]
    | ok txs => simp [index_transactions_for_block, hr] at he
  · intro txs htxs
    have := hspec.2.2.2 txs htxs
    omega

/-- Claim C6 witness: a block announcing two transactions against an RPC
whose page 1 holds one transaction and page 2 is empty: pages 1 and 2
are requested in order and the empty page makes the attempt fail with
the database unchanged. -/
theorem claim6_witness :
    (0 : Int) < rowTwoTxs.num_txs ∧
    ((index_transactions_for_block ⟨[], [], 5⟩ rpcOneTx [] rowTwoTxs).trace.map
        (fun c => c.page)
      = List.range' 1
          (index_transactions_for_block ⟨[], [], 5⟩ rpcOneTx [] rowTwoTxs).trace.length) ∧
    (index_transactions_for_block ⟨[], [], 5⟩ rpcOneTx [] rowTwoTxs).db
      = ⟨[], [], 5⟩ := by
  have hf : fetchTxsLoop rpcOneTx rowTwoTxs.height rowTwoTxs.num_txs 0 0
      = (.error "No transactions found from RPC for block with transactions",
         [txPageCall 100 1, txPageCall 100 2]) := by
    rw [show rowTwoTxs.height = (100 : Int) from rfl,
        show rowTwoTxs.num_txs = (2 : Int) from rfl]
    rw [fetchTxsLoop_step_cons rpcOneTx 100 2 0 0 txCafe [] (by norm_num)
      (by rfl)]
    rw [fetchTxsLoop_step_empty rpcOneTx 100 2
      (0 + (((txCafe :: []).length : Nat) : Int)) 1 (by norm_num) (by rfl)]
  have hres : (index_transactions_for_block ⟨[], [], 5⟩ rpcOneTx [] rowTwoTxs).result
      = .error "No transactions found from RPC for block with transactions" := by
    unfold index_transactions_for_block
    rw [hf]
  exact ⟨by norm_num [rowTwoTxs],
    (claim6_tx_pagination ⟨[], [], 5⟩ rpcOneTx [] rowTwoTxs
      (by norm_num [rowTwoTxs])).1,
    (claim6_tx_pagination ⟨[], [], 5⟩ rpcOneTx [] rowTwoTxs
      (by norm_num [rowTwoTxs])).2.2.2.1 _ hres⟩

/-! ### Claim C2 — idempotent block insert -/

theorem handle_query_eq (db : DbState)
    (rpc : TxSearchCall → Except String (List TxResponse))
    (filters : List Filter) (m : String) :
    handle_block_insert_result db rpc filters (.error (.Query m))
      = if strContains m duplicateKeyPhrase then (db, .ok ())
        else (db, .error ("Failed to insert block: " ++ m)) := rfl

theorem handle_other_eq (db : DbState)
    (rpc : TxSearchCall → Except String (List TxResponse))
    (filters : List Filter) (m : String) :
    handle_block_insert_result db rpc filters (.error (.Other m))
      = (db, .error ("Unexpected error " ++ m)) := rfl

theorem handle_ok_eq (db : DbState)
    (rpc : TxSearchCall → Except String (List TxResponse))
    (filters : List Filter) (db1 : DbState) (blockRow : DbBlockRow) :
    handle_block_insert_result db rpc filters (.ok (db1, blockRow))
      = if 0 < blockRow.num_txs then
          retryStateRun 15 (fun d =>
            ((index_transactions_for_block d rpc filters blockRow).db,
             (index_transactions_for_block d rpc filters blockRow).result)) db1
        else (db1, .ok ()) := rfl

/-- Claim C2 (amended): when inserting a block row fails with the
`(height, chain_id)` unique-key violation, `index_block` swallows the
error — it returns `Ok` and the database is left exactly as it was (no
new block row) — but it does **not** proceed to transaction indexing for
that block: the whole call returns immediately.  A `DbErr::Query` whose
message lacks the unique-violation phrase, and every non-`Query` error,
make `index_block` return an error with the database unchanged. -/
theorem claim2_duplicate_insert (db : DbState)
    (rpc : TxSearchCall → Except String (List TxResponse))
    (filters : List Filter) (block : Block)
    (hdup : db.blocks.any (fun b =>
        b.height == ((block.header.height : Nat) : Int) &&
        b.chain_id == block.header.chain_id) = true) :
    index_block db rpc filters block = (db, .ok ()) ∧
    (∀ m, handle_block_insert_result db rpc filters (.error (.Other m))
        = (db, .error ("Unexpected error " ++ m))) ∧
    (∀ m, strContains m duplicateKeyPhrase = false →
      handle_block_insert_result db rpc filters (.error (.Query m))
        = (db, .error ("Failed to insert block: " ++ m))) := by
  have hins : insertBlockRow (blockModelFrom db block).2 (blockModelFrom db block).1
      = .error (.Query (duplicateKeyPhrase ++ " \"block_height_chain_id_key\"")) := by
    unfold insertBlockRow
    rw [if_pos ?hc]
    case hc => exact hdup
  refine ⟨?_, ?_, ?_⟩
  · unfold index_block
    rw [hins, handle_query_eq,
      if_pos (strContains_append_self duplicateKeyPhrase _)]
  · intro m
    exact handle_other_eq db rpc filters m
  · intro m hm
    rw [handle_query_eq, if_neg (by simp [hm])]

/-- Claim C2 witness: re-running `index_block` on `blockUni5` against a
database already holding its `(height = 100, chain_id = "uni-5")` row
returns `Ok` with the database unchanged. -/
theorem claim2_witness :
    (dbWithBlockUni5.blocks.any (fun b =>
        b.height == ((blockUni5.header.height : Nat) : Int) &&
        b.chain_id == blockUni5.header.chain_id) = true) ∧
    index_block dbWithBlockUni5 rpcOneTx [] blockUni5
      = (dbWithBlockUni5, .ok ()) :=
  ⟨by decide,
   (claim2_duplicate_insert dbWithBlockUni5 rpcOneTx [] blockUni5 (by decide)).1⟩

/-- Claim C2 counterexample: indexing `blockUni5` (which announces one
transaction, and whose transaction the RPC oracle `rpcOneTx` serves on
page 1) against a database already holding its row returns `Ok` with
**no** transaction row written — although the same call against an empty
database fetches and inserts that transaction.  So "transaction indexing
still proceeds" fails on the duplicate path. -/
theorem claim2_counterexample :
    (index_block dbWithBlockUni5 rpcOneTx [] blockUni5).2 = .ok () ∧
    (index_block dbWithBlockUni5 rpcOneTx [] blockUni5).1.txs = [] ∧
    (index_block ⟨[], [], 0⟩ rpcOneTx [] blockUni5).1.txs.length = 1 := by
  have hdup : index_block dbWithBlockUni5 rpcOneTx [] blockUni5
      = (dbWithBlockUni5, .ok ()) := by
    have hins2 : insertBlockRow (blockModelFrom dbWithBlockUni5 blockUni5).2
        (blockModelFrom dbWithBlockUni5 blockUni5).1
        = .error (.Query
            (duplicateKeyPhrase ++ " \"block_height_chain_id_key\"")) := by
      unfold insertBlockRow
      rw [if_pos (by decide)]
    unfold index_block
    rw [hins2, handle_query_eq,
      if_pos (strContains_append_self duplicateKeyPhrase _)]
  refine ⟨by rw [hdup], by rw [hdup]; rfl, ?_⟩
  have hins : insertBlockRow (blockModelFrom (⟨[], [], 0⟩ : DbState) blockUni5).2
      (blockModelFrom (⟨[], [], 0⟩ : DbState) blockUni5).1
      = .ok (⟨[(blockModelFrom (⟨[], [], 0⟩ : DbState) blockUni5).1], [], 1⟩,
             (blockModelFrom (⟨[], [], 0⟩ : DbState) blockUni5).1) := by
    unfold insertBlockRow
    rw [if_neg (by decide)]
    rfl
  have hfetch : fetchTxsLoop rpcOneTx
      ((blockModelFrom (⟨[], [], 0⟩ : DbState) blockUni5).1.height)
      ((blockModelFrom (⟨[], [], 0⟩ : DbState) blockUni5).1.num_txs) 0 0
      = (.ok [txCafe], [txPageCall 100 1]) := by
    rw [show ((blockModelFrom (⟨[], [], 0⟩ : DbState) blockUni5).1.height)
        = (100 : Int) from by decide]
    rw [show ((blockModelFrom (⟨[], [], 0⟩ : DbState) blockUni5).1.num_txs)
        = (1 : Int) from by decide]
    rw [fetchTxsLoop_step_cons rpcOneTx 100 1 0 0 txCafe [] (by norm_num)
      (by rfl)]
    rw [fetchTxsLoop_done rpcOneTx 100 1 (0 + (((txCafe :: []).length : Nat) : Int))
      1 (by norm_num)]
    rfl
  have hact : index_transactions_for_block
      (⟨[(blockModelFrom (⟨[], [], 0⟩ : DbState) blockUni5).1], [], 1⟩ : DbState)
      rpcOneTx []
      (blockModelFrom (⟨[], [], 0⟩ : DbState) blockUni5).1
      = ⟨⟨[(blockModelFrom (⟨[], [], 0⟩ : DbState) blockUni5).1],
          [transactionModelFromResponse 1
            (blockModelFrom (⟨[], [], 0⟩ : DbState) blockUni5).1.id txCafe], 2⟩,
         .ok (), [txPageCall 100 1]⟩ := by
    unfold index_transactions_for_block
    rw [hfetch]
    rfl
  have hact2 : ((index_transactions_for_block
        (⟨[(blockModelFrom (⟨[], [], 0⟩ : DbState) blockUni5).1], [], 1⟩ : DbState)
        rpcOneTx []
        (blockModelFrom (⟨[], [], 0⟩ : DbState) blockUni5).1).db,
      (index_transactions_for_block
        (⟨[(blockModelFrom (⟨[], [], 0⟩ : DbState) blockUni5).1], [], 1⟩ : DbState)
        rpcOneTx []
        (blockModelFrom (⟨[], [], 0⟩ : DbState) blockUni5).1).result)
      = ((⟨[(blockModelFrom (⟨[], [], 0⟩ : DbState) blockUni5).1],
          [transactionModelFromResponse 1
            (blockModelFrom (⟨[], [], 0⟩ : DbState) blockUni5).1.id txCafe], 2⟩ :
            DbState),
         Except.ok ()) := by
    rw [hact]
  unfold index_block
  rw [hins, handle_ok_eq, if_pos (by decide)]
  rw [retryStateRun_first_ok 15
    (fun d =>
      ((index_transactions_for_block d rpcOneTx []
          (blockModelFrom (⟨[], [], 0⟩ : DbState) blockUni5).1).db,
       (index_transactions_for_block d rpcOneTx []
          (blockModelFrom (⟨[], [], 0⟩ : DbState) blockUni5).1).result))
    (⟨[(blockModelFrom (⟨[], [], 0⟩ : DbState) blockUni5).1], [], 1⟩ : DbState)
    (⟨[(blockModelFrom (⟨[], [], 0⟩ : DbState) blockUni5).1],
      [transactionModelFromResponse 1
        (blockModelFrom (⟨[], [], 0⟩ : DbState) blockUni5).1.id txCafe], 2⟩ :
        DbState)
    hact2]
  rfl

/-! ### Claim C7 — chain-id guard -/

/-- Claim C7: a received block whose chain id differs from the
configured chain id is skipped with two warnings logged: the database is
returned untouched (no block row, no transaction row), the loop outcome
is `Ok`, and the worker proceeds with the remaining blocks. -/
theorem claim7_chain_guard (cfg : String)
    (rpc : TxSearchCall → Except String (List TxResponse))
    (filters : List Filter) (db : DbState) (block : Block)
    (rest : List Block)
    (hmis : block.header.chain_id ≠ cfg) :
    processBlock cfg rpc filters db block
      = (db, [chainMismatchWarn cfg block.header.chain_id, skipNotice],
         .ok ()) ∧
    runWorker cfg rpc filters db (block :: rest)
      = ((runWorker cfg rpc filters db rest).1,
         [chainMismatchWarn cfg block.header.chain_id, skipNotice]
           ++ (runWorker cfg rpc filters db rest).2.1,
         (runWorker cfg rpc filters db rest).2.2) := by
  have h1 : processBlock cfg rpc filters db block
      = (db, [chainMismatchWarn cfg block.header.chain_id, skipNotice],
         .ok ()) := by
    unfold processBlock
    rw [if_pos hmis]
  refine ⟨h1, ?_⟩
  simp only [runWorker, h1]

/-- Claim C7 witness: with configured chain id `uni-5`, the incoming
block `blockSevenB` (chain id `uni-6`) is skipped: database unchanged,
warnings logged, processing continues. -/
theorem claim7_witness :
    blockSevenB.header.chain_id ≠ "uni-5" ∧
    processBlock "uni-5" rpcOneTx [] dbWithBlockUni5 blockSevenB
      = (dbWithBlockUni5,
         [chainMismatchWarn "uni-5" blockSevenB.header.chain_id, skipNotice],
         .ok ()) :=
  ⟨by decide,
   (claim7_chain_guard "uni-5" rpcOneTx [] dbWithBlockUni5 blockSevenB []
      (by decide)).1⟩

/-! ### Claim C5 — sequencer dedup and monotone emission -/

theorem heights_append (l1 l2 : List Block) :
    heights (l1 ++ l2) = heights l1 ++ heights l2 := by
  unfold heights
  exact List.map_append _ _ _

theorem insertPendingByHeight_ne_nil (b : Block) (l : List Block) :
    insertPendingByHeight b l ≠ [] := by
  cases l with
  | nil => simp [insertPendingByHeight]
  | cons p rest =>
      unfold insertPendingByHeight
      by_cases hlt : b.header.height < p.header.height <;> simp [hlt]

theorem mem_heights_insertPending (b : Block) (l : List Block) (x : Nat) :
    x ∈ heights (insertPendingByHeight b l)
      ↔ x = b.header.height ∨ x ∈ heights l := by
  induction l with
  | nil => simp [insertPendingByHeight, heights]
  | cons p rest ih =>
      by_cases hlt : b.header.height < p.header.height
      · simp [insertPendingByHeight, hlt, heights]
      · simp only [insertPendingByHeight, if_neg hlt, heights, List.map_cons,
          List.mem_cons] at ih ⊢
        rw [ih]
        tauto

theorem insertPending_sorted (b : Block) (l : List Block)
    (hs : (heights l).Pairwise (· < ·))
    (hb : b.header.height ∉ heights l) :
    (heights (insertPendingByHeight b l)).Pairwise (· < ·) := by
  induction l with
  | nil => simp [insertPendingByHeight, heights]
  | cons p rest ih =>
      simp only [heights, List.map_cons, List.pairwise_cons] at hs
      simp only [heights, List.map_cons, List.mem_cons] at hb
      push_neg at hb
      by_cases hlt : b.header.height < p.header.height
      · simp only [insertPendingByHeight, if_pos hlt, heights, List.map_cons]
        refine List.pairwise_cons.mpr ⟨?_, List.pairwise_cons.mpr ⟨hs.1, hs.2⟩⟩
        intro h hh
        simp only [List.mem_cons] at hh
        rcases hh with rfl | hh
        · exact hlt
        · exact lt_trans hlt (hs.1 h hh)
      · have hgt : p.header.height < b.header.height := by
          rcases Nat.lt_trichotomy b.header.height p.header.height with h | h | h
          · exact absurd h hlt
          · exact absurd h hb.1
          · exact h
        simp only [insertPendingByHeight, if_neg hlt, heights, List.map_cons]
        refine List.pairwise_cons.mpr ⟨?_, ?_⟩
        · intro h hh
          have hh2 : h ∈ heights (insertPendingByHeight b rest) := hh
          rw [mem_heights_insertPending] at hh2
          rcases hh2 with rfl | hh2
          · exact hgt
          · exact hs.1 h (by simpa [heights] using hh2)
        · exact ih hs.2 (by
            intro hc
            exact hb.2 (by simpa [heights] using hc))

theorem seqStep_inv (cap : Nat) (st : SequencerState) (b : Block)
    (out : List Nat) (hinv : SeqInv st out) :
    SeqInv (seqStep cap st b).1 (out ++ heights (seqStep cap st b).2) := by
  by_cases hdrop : seqDrop st b.header.height = true
  · unfold seqStep
    rw [if_pos hdrop]
    simp only [heights, List.map_nil, List.append_nil]
    exact hinv
  · have hdropf : seqDrop st b.header.height = false :=
      Bool.not_eq_true _ ▸ (by simpa using hdrop)
    unfold seqDrop at hdropf
    rw [Bool.or_eq_false_iff] at hdropf
    have hmem : b.header.height ∉ heights st.pending := by
      intro hc
      unfold heights at hc
      rw [List.mem_map] at hc
      obtain ⟨p, hp, hph⟩ := hc
      have := List.any_eq_false.mp hdropf.1 p hp
      simp [hph] at this
    have habove : ∀ l, st.lastEmitted = some l → l < b.header.height := by
      intro l hl
      have h2 := hdropf.2
      rw [hl] at h2
      simp at h2
      omega
    unfold seqStep
    rw [if_neg (by simp [hdrop])]
    by_cases hcap : cap ≤ (insertPendingByHeight b st.pending).length
    · rw [if_pos hcap]
      cases hp : insertPendingByHeight b st.pending with
      | nil => exact absurd hp (insertPendingByHeight_ne_nil b st.pending)
      | cons m rest =>
          have hsorted : (heights (m :: rest)).Pairwise (· < ·) := by
            rw [← hp]
            exact insertPending_sorted b st.pending hinv.pendSorted hmem
          have hm_mem : m.header.height ∈ heights (insertPendingByHeight b st.pending) := by
            rw [hp]
            simp [heights]
          have hm_cases := (mem_heights_insertPending b st.pending
            m.header.height).mp hm_mem
          have hm_above : ∀ l, st.lastEmitted = some l → l < m.header.height := by
            intro l hl
            rcases hm_cases with heq | hin
            · rw [heq]; exact habove l hl
            · exact hinv.pendAbove l hl _ hin
          have hsorted' : (m.header.height :: heights rest).Pairwise (· < ·) := by
            simpa only [heights, List.map_cons] using hsorted
          have hsorted_cons := List.pairwise_cons.mp hsorted'
          refine ⟨?_, ?_, ?_, ?_, ?_⟩
          · -- out ++ [m.height] strictly sorted
            simp only [heights, List.map_cons, List.map_nil]
            rw [List.pairwise_append]
            refine ⟨hinv.outSorted, by simp, ?_⟩
            intro a ha a2 ha2
            simp only [List.mem_cons, List.not_mem_nil, or_false] at ha2
            subst ha2
            cases hle : st.lastEmitted with
            | none => rw [hinv.noneEmpty hle] at ha; cases ha
            | some l =>
                have h1 := hinv.outBelow l hle a ha
                have h2 := hm_above l hle
                omega
          · -- remaining buffer sorted
            exact hsorted_cons.2
          · -- everything emitted ≤ new lastEmitted
            intro l hl e he
            simp only [Option.some.injEq] at hl
            subst hl
            rw [List.mem_append] at he
            rcases he with he | he
            · cases hle : st.lastEmitted with
              | none => rw [hinv.noneEmpty hle] at he; cases he
              | some l0 =>
                  have h1 := hinv.outBelow l0 hle e he
                  have h2 := hm_above l0 hle
                  omega
            · simp only [heights, List.map_cons, List.map_nil,
                List.mem_cons, List.not_mem_nil, or_false] at he
              omega
          · -- everything buffered > new lastEmitted
            intro l hl p hp2
            simp only [Option.some.injEq] at hl
            subst hl
            exact hsorted_cons.1 p hp2
          · intro hc
            cases hc
    · rw [if_neg hcap]
      refine ⟨?_, ?_, ?_, ?_, ?_⟩
      · simp only [heights, List.map_nil, List.append_nil]
        exact hinv.outSorted
      · exact insertPending_sorted b st.pending hinv.pendSorted hmem
      · intro l hl e he
        simp only [heights, List.map_nil, List.append_nil] at he
        exact hinv.outBelow l hl e he
      · intro l hl p hp2
        rcases (mem_heights_insertPending b st.pending p).mp hp2 with rfl | hin
        · exact habove l hl
        · exact hinv.pendAbove l hl p hin
      · intro hc
        simp only [heights, List.map_nil, List.append_nil]
        exact hinv.noneEmpty hc

theorem seqRun_inv (cap : Nat) (blocks : List Block) :
    ∀ (st : SequencerState) (out : List Nat), SeqInv st out →
    SeqInv (seqRun cap st blocks).1
      (out ++ heights (seqRun cap st blocks).2) := by
  induction blocks with
  | nil =>
      intro st out h
      simp only [seqRun, heights, List.map_nil, List.append_nil]
      exact h
  | cons b rest ih =>
      intro st out h
      have h1 := seqStep_inv cap st b out h
      have h2 := ih (seqStep cap st b).1 (out ++ heights (seqStep cap st b).2) h1
      simp only [seqRun]
      rw [heights_append, ← List.append_assoc]
      exact h2

/-- Claim C5: for every input sequence fed to the sequencer, the heights
of the output (the ordered emissions followed by the drain of the buffer
on upstream closure) are strictly increasing, so every height appears at
most once.  (The sequencer itself is modelled from the spec, §4.3: the
`croncat_pipeline` crate is not part of this repository's sources.) -/
theorem claim5_sequencer_dedup_monotone (cap : Nat) (blocks : List Block) :
    (heights (sequencerOutput cap blocks)).Pairwise (· < ·) ∧
    (heights (sequencerOutput cap blocks)).Nodup := by
  have h0 : SeqInv ⟨[], none⟩ [] := by
    refine ⟨?_, ?_, ?_, ?_, ?_⟩ <;> simp [heights]
  have h := seqRun_inv cap blocks ⟨[], none⟩ [] h0
  have hsorted : (heights (sequencerOutput cap blocks)).Pairwise (· < ·) := by
    show (heights ((seqRun cap ⟨[], none⟩ blocks).2
      ++ (seqRun cap ⟨[], none⟩ blocks).1.pending)).Pairwise (· < ·)
    rw [heights_append, List.pairwise_append]
    refine ⟨h.outSorted, h.pendSorted, ?_⟩
    intro a ha p hp
    cases hle : (seqRun cap ⟨[], none⟩ blocks).1.lastEmitted with
    | none =>
        have hnil : heights (seqRun cap ⟨[], none⟩ blocks).2 = [] :=
          h.noneEmpty hle
        rw [hnil] at ha
        cases ha
    | some l =>
        have h1 := h.outBelow l hle a ha
        have h2 := h.pendAbove l hle p hp
        omega
  exact ⟨hsorted, hsorted.imp (fun hlt => Nat.ne_of_lt hlt)⟩

end Croncat
